import Mathlib

/-!
Verification of the `vectormodel` Go package of the repository `jbochi/facts`
(source file `vectormodel/vector_model.go`), a serving engine for implicit-feedback
matrix-factorization recommendations.

Modelling conventions of the shallow embedding:

* Go `float64` arithmetic is idealised as exact rational arithmetic (`ℚ`).
* A Go `map[int][]float64` input is modelled as an association list
  `List (ℤ × List ℚ)`; the (randomised) Go map iteration order becomes the
  list order, so every theorem quantifying over the list covers every
  possible iteration order.  A Go `map[int]bool` (set of seen documents) is
  modelled as a `List ℤ` of its keys; note that the Go code only ever tests
  key *presence* (`_, ok := m[doc]`) and iterates over keys, never reading
  the boolean values, so the key list captures it exactly.
* Matrices are `Matrix (Fin nItems) (Fin nFactors) ℚ`.
* Calls into the gonum library are modelled by gonum's documented contracts:
  - `mat.NewDense(r, c, data)` panics when `r = 0` or `c = 0`
    ("NewDense will panic if either r or c is zero"), which the constructor
    embedding surfaces as a `panicked` outcome;
  - `mat.Cholesky.Factorize` succeeds exactly when the symmetric input is
    positive definite, which in exact arithmetic is Sylvester's criterion:
    every leading principal minor is positive (`choleskyFactorizable`);
  - `mat.Cholesky.SolveVec` returns the exact solution of `A·x = b`,
    written computably as `A.det⁻¹ • (A.adjugate.mulVec b)`.
* `sort.Sort` is an arbitrary (unstable, unspecified tie-break) comparison
  sort; it is modelled by `List.mergeSort` with the same comparator
  `byDocScoreDesc.Less`-derived ordering.  None of the verified claims
  depends on the tie-breaking behaviour.
-/

namespace Facts

/-- DocumentScore mirrors the Go struct `DocumentScore`: the result of a
recommendation, pairing a document id with its score. -/
structure DocumentScore where
  DocumentID : ℤ
  Score : ℚ
  deriving DecidableEq, Repr

/-- VMError enumerates the two request-time error values produced by the Go
code: the `fmt.Errorf("No seen doc is in model. ...")` error of
`scoreCandidates` (the spec's `InsufficientHistory`) and the
`errors.New("Failed to run Cholesky factorization")` error of `userVector`
(the spec's `SingularSystem`). -/
inductive VMError where
  | insufficientHistory
  | singularSystem
  deriving DecidableEq, Repr

/-- RecommendResult is the outcome of `VectorModel.Recommend`: a normal
return of scored recommendations, a returned error, or a Go runtime panic
(possible at the slice expression `recommendations[:n]` when `n < 0`). -/
inductive RecommendResult where
  | ok (recommendations : List DocumentScore)
  | err (e : VMError)
  | panicked
  deriving Repr

/-- VectorModel mirrors the Go struct `VectorModel`.  `docIndexes` is the
id → row-index map, `docIDs` the inverse list, `itemFactorsY` the item
factor matrix `Y` and `squaredItemFactorsYtY` the cached Gram matrix. -/
structure VectorModel where
  nItems : ℕ
  nFactors : ℕ
  confidence : ℚ
  regularization : ℚ
  docIDs : List ℤ
  docIndexes : ℤ → Option (Fin nItems)
  itemFactorsY : Matrix (Fin nItems) (Fin nFactors) ℚ
  squaredItemFactorsYtY : Matrix (Fin nFactors) (Fin nFactors) ℚ

/-- BuildResult is the outcome of `NewVectorModel`: a constructed model, the
`errors.New("Invalid vector size")` error, or a Go runtime panic raised by
`mat.NewDense` on a zero-sized matrix. -/
inductive BuildResult where
  | ok (vm : VectorModel)
  | invalidVectorSize
  | panicked

/-- eye mirrors the Go helper `eye(n, value)`: an `n × n` matrix with
`value` on the diagonal and zeroes elsewhere. -/
def eye (n : ℕ) (value : ℚ) : Matrix (Fin n) (Fin n) ℚ :=
  Matrix.diagonal fun _ => value

/-- systemMatrix is the matrix `A` assembled by the Go `userVector`:
starting from `YtY + regularization·I`, the loop over the confidence map
adds `(confidence − 1) · (factor outer factor)` for every document found in
`docIndexes` (documents not found are skipped by the `continue`). -/
def systemMatrix (vm : VectorModel) (cmap : List (ℤ × ℚ)) :
    Matrix (Fin vm.nFactors) (Fin vm.nFactors) ℚ :=
  cmap.foldl
    (fun (A : Matrix (Fin vm.nFactors) (Fin vm.nFactors) ℚ) (dc : ℤ × ℚ) =>
      match vm.docIndexes dc.1 with
      | none => A
      | some index =>
          A + (dc.2 - 1) • Matrix.vecMulVec (vm.itemFactorsY index) (vm.itemFactorsY index))
    (vm.squaredItemFactorsYtY + eye vm.nFactors vm.regularization)

/-- systemVector is the vector `b` assembled by the Go `userVector`:
starting from the zero vector, the loop adds `confidence · factor` for
every document found in `docIndexes`. -/
def systemVector (vm : VectorModel) (cmap : List (ℤ × ℚ)) : Fin vm.nFactors → ℚ :=
  cmap.foldl
    (fun (b : Fin vm.nFactors → ℚ) (dc : ℤ × ℚ) =>
      match vm.docIndexes dc.1 with
      | none => b
      | some index => b + dc.2 • vm.itemFactorsY index)
    0

/-- leadingSubmatrix extracts the upper-left `k × k` block of a square
matrix; its determinants are the leading principal minors used by
Sylvester's criterion. -/
def leadingSubmatrix {n : ℕ} (A : Matrix (Fin n) (Fin n) ℚ) (k : ℕ) (h : k ≤ n) :
    Matrix (Fin k) (Fin k) ℚ :=
  A.submatrix (Fin.castLE h) (Fin.castLE h)

/-- choleskyFactorizable models the success condition of gonum's
`mat.Cholesky.Factorize` in exact arithmetic: the (symmetric) input is
positive definite, i.e. all leading principal minors are positive
(Sylvester's criterion). -/
def choleskyFactorizable {n : ℕ} (A : Matrix (Fin n) (Fin n) ℚ) : Prop :=
  ∀ k (h : k ≤ n), 0 < (leadingSubmatrix A k h).det

instance choleskyFactorizableDec {n : ℕ} (A : Matrix (Fin n) (Fin n) ℚ) :
    Decidable (choleskyFactorizable A) :=
  Nat.decidableBallLE n _

/-- userVector mirrors the Go `userVector`: assemble `A` and `b` from the
confidence map, then solve `A·x = b` by a Cholesky factorization.  The
factorization is modelled by its exact-arithmetic contract
(`choleskyFactorizable`), and the solve by the exact solution
`A.det⁻¹ • (A.adjugate.mulVec b)`; when the factorization cannot proceed
the Go code returns `errors.New("Failed to run Cholesky factorization")`. -/
def userVector (vm : VectorModel) (cmap : List (ℤ × ℚ)) :
    Except VMError (Fin vm.nFactors → ℚ) :=
  if choleskyFactorizable (systemMatrix vm cmap) then
    Except.ok ((systemMatrix vm cmap).det⁻¹ •
      (systemMatrix vm cmap).adjugate.mulVec (systemVector vm cmap))
  else
    Except.error VMError.singularSystem

/-- scoresForUserVec mirrors the Go `scoresForUserVec`: the vector `Y · x`
of dot products of every item factor row with the user vector. -/
def scoresForUserVec (vm : VectorModel) (userVec : Fin vm.nFactors → ℚ) :
    Fin vm.nItems → ℚ :=
  vm.itemFactorsY.mulVec userVec

/-- confidenceMap mirrors the Go `confidenceMap`: iterate over the keys of
the seen-documents set and keep those present in `docIndexes`, each mapped
to the model's global confidence value.  The `dedup` reflects that Go map
keys are unique. -/
def confidenceMap (vm : VectorModel) (seenDocs : List ℤ) : List (ℤ × ℚ) :=
  seenDocs.dedup.filterMap fun doc =>
    match vm.docIndexes doc with
    | some _ => some (doc, vm.confidence)
    | none => none

/-- scoreDoc is the per-candidate scoring policy of the Go
`scoreCandidates` loop: a seen document scores `−1`, a document unknown to
the model scores `0`, and otherwise the document scores its entry of the
projected score vector. -/
def scoreDoc (vm : VectorModel) (seenDocs : List ℤ) (scoresVec : Fin vm.nItems → ℚ)
    (doc : ℤ) : ℚ :=
  if seenDocs.contains doc then -1
  else
    match vm.docIndexes doc with
    | none => 0
    | some index => scoresVec index

/-- byDocScoreDescLe is the (non-strict) ordering derived from the Go
comparator `byDocScoreDesc.Less(i, j) = a[i].Score > a[j].Score`: element
`a` may precede element `b` when `b.Score ≤ a.Score`. -/
def byDocScoreDescLe (a b : DocumentScore) : Bool :=
  decide (b.Score ≤ a.Score)

/-- sortByScoreDesc models `sort.Sort(byDocScoreDesc(candidateScores))`:
a comparison sort into descending score order. -/
def sortByScoreDesc (l : List DocumentScore) : List DocumentScore :=
  l.mergeSort byDocScoreDescLe

/-- scoreCandidates mirrors the Go `scoreCandidates`: build the confidence
map, fail with the insufficient-history error when it is empty, solve for
the user vector (propagating its error), score every candidate with
`scoreDoc`, and sort descending by score. -/
def scoreCandidates (vm : VectorModel) (candidates : List ℤ) (seenDocs : List ℤ) :
    Except VMError (List DocumentScore) :=
  if (confidenceMap vm seenDocs).length = 0 then
    Except.error VMError.insufficientHistory
  else
    match userVector vm (confidenceMap vm seenDocs) with
    | Except.error e => Except.error e
    | Except.ok userVec =>
        Except.ok (sortByScoreDesc (candidates.map fun doc =>
          ⟨doc, scoreDoc vm seenDocs (scoresForUserVec vm userVec) doc⟩))

/-- Rank mirrors the Go `Rank`: score the caller's candidates, then write
the sorted document ids back into the candidate slice and return the
parallel score slice.  The returned pair is (reordered candidates, scores). -/
def Rank (vm : VectorModel) (candidates : List ℤ) (seenDocs : List ℤ) :
    Except VMError (List ℤ × List ℚ) :=
  match scoreCandidates vm candidates seenDocs with
  | Except.error e => Except.error e
  | Except.ok candidateScores =>
      Except.ok
        (candidateScores.map (·.DocumentID), candidateScores.map (·.Score))

/-- Recommend mirrors the Go `Recommend`: score all documents of the model
(`vm.docIDs` is passed as the candidate list), then truncate to the top `n`
when more than `n` recommendations exist.  The Go slice expression
`recommendations[:n]` panics when `n < 0`. -/
def Recommend (vm : VectorModel) (seenDocs : List ℤ) (n : ℤ) : RecommendResult :=
  match scoreCandidates vm vm.docIDs seenDocs with
  | Except.error e => RecommendResult.err e
  | Except.ok recommendations =>
      if (recommendations.length : ℤ) > n then
        if n < 0 then RecommendResult.panicked
        else RecommendResult.ok (recommendations.take n.toNat)
      else RecommendResult.ok recommendations

/-- NewVectorModel mirrors the Go `NewVectorModel`.  The loop over the
input documents fixes `nFactors` to the length of the first vector and
returns the `Invalid vector size` error as soon as any vector's length
differs; afterwards `mat.NewDense(len(documents), nFactors, data)` builds
`Y`, which, per gonum's documented contract, panics when either dimension
is zero; finally the Gram matrix `YtY = Yᵀ · Y` is cached. -/
def NewVectorModel (documents : List (ℤ × List ℚ)) (confidence regularization : ℚ) :
    BuildResult :=
  let nFactors := match documents with
    | [] => 0
    | d :: _ => d.2.length
  if documents.any fun d => d.2.length != nFactors then
    BuildResult.invalidVectorSize
  else if documents.length = 0 ∨ nFactors = 0 then
    BuildResult.panicked
  else
    let Y : Matrix (Fin documents.length) (Fin nFactors) ℚ :=
      Matrix.of fun i j => (documents.get i).2.getD j.val 0
    BuildResult.ok
      { nItems := documents.length
        nFactors := nFactors
        confidence := confidence
        regularization := regularization
        docIDs := documents.map Prod.fst
        docIndexes := fun d =>
          if h : (documents.map Prod.fst).indexOf d < documents.length then
            some ⟨(documents.map Prod.fst).indexOf d, h⟩
          else none
        itemFactorsY := Y
        squaredItemFactorsYtY := Y.transpose * Y }

/-- RankWithModel is the state-passing reading of the pointer-receiver Go
method `Rank`: the method body contains no assignment to any field of the
receiver, so the post-call model is the receiver unchanged. -/
def RankWithModel (vm : VectorModel) (candidates : List ℤ) (seenDocs : List ℤ) :
    VectorModel × Except VMError (List ℤ × List ℚ) :=
  (vm, Rank vm candidates seenDocs)

/-- RecommendWithModel is the state-passing reading of the pointer-receiver
Go method `Recommend`: the method body contains no assignment to any field
of the receiver, so the post-call model is the receiver unchanged. -/
def RecommendWithModel (vm : VectorModel) (seenDocs : List ℤ) (n : ℤ) :
    VectorModel × RecommendResult :=
  (vm, Recommend vm seenDocs n)

end Facts

namespace Facts

/-! ### General lemmas about the solver -/

/-- The last leading principal minor is the full determinant, so a matrix
accepted by the Cholesky factorization model has positive determinant. -/
theorem det_pos_of_choleskyFactorizable {n : ℕ} {A : Matrix (Fin n) (Fin n) ℚ}
    (h : choleskyFactorizable A) : 0 < A.det := by
  have hk := h n le_rfl
  have hself : leadingSubmatrix A n le_rfl = A := rfl
  rwa [hself] at hk

/-- Multiplication by a square matrix with nonzero determinant is injective
on vectors. -/
theorem mulVec_injective_of_det_ne_zero {n : ℕ} {A : Matrix (Fin n) (Fin n) ℚ}
    (hdet : A.det ≠ 0) {x y : Fin n → ℚ} (hxy : A.mulVec x = A.mulVec y) : x = y := by
  have h : A.adjugate.mulVec (A.mulVec x) = A.adjugate.mulVec (A.mulVec y) := by rw [hxy]
  rw [Matrix.mulVec_mulVec, Matrix.mulVec_mulVec, Matrix.adjugate_mul,
    Matrix.smul_mulVec_assoc, Matrix.smul_mulVec_assoc, Matrix.one_mulVec,
    Matrix.one_mulVec] at h
  exact smul_right_injective (Fin n → ℚ) hdet h

/-- When `userVector` returns a vector, that vector solves the assembled
linear system `A·x = b`. -/
theorem userVector_ok_solves {vm : VectorModel} {cmap : List (ℤ × ℚ)}
    {x : Fin vm.nFactors → ℚ} (h : userVector vm cmap = Except.ok x) :
    (systemMatrix vm cmap).mulVec x = systemVector vm cmap := by
  unfold userVector at h
  split at h
  case isFalse => exact absurd h (by simp)
  case isTrue hch =>
    have hdet : (systemMatrix vm cmap).det ≠ 0 :=
      ne_of_gt (det_pos_of_choleskyFactorizable hch)
    have hx : x = (systemMatrix vm cmap).det⁻¹ •
        (systemMatrix vm cmap).adjugate.mulVec (systemVector vm cmap) := by
      injection h with h
      exact h.symm
    rw [hx, Matrix.mulVec_smul, Matrix.mulVec_mulVec, Matrix.mul_adjugate,
      Matrix.smul_mulVec_assoc, Matrix.one_mulVec, smul_smul,
      inv_mul_cancel₀ hdet, one_smul]

/-- Conversely, any solution of the assembled system is the vector that
`userVector` returns (when the factorization succeeds). -/
theorem userVector_eq_ok_of {vm : VectorModel} {cmap : List (ℤ × ℚ)}
    {x : Fin vm.nFactors → ℚ}
    (hch : choleskyFactorizable (systemMatrix vm cmap))
    (hx : (systemMatrix vm cmap).mulVec x = systemVector vm cmap) :
    userVector vm cmap = Except.ok x := by
  have hok : userVector vm cmap = Except.ok ((systemMatrix vm cmap).det⁻¹ •
      (systemMatrix vm cmap).adjugate.mulVec (systemVector vm cmap)) := by
    unfold userVector
    rw [if_pos hch]
  have hsol := userVector_ok_solves hok
  have heq := mulVec_injective_of_det_ne_zero
    (ne_of_gt (det_pos_of_choleskyFactorizable hch)) (hx.trans hsol.symm)
  rw [hok, heq]

/-- The only error `userVector` can produce is the singular-system error. -/
theorem userVector_error_elim {vm : VectorModel} {cmap : List (ℤ × ℚ)} {e : VMError}
    (h : userVector vm cmap = Except.error e) : e = VMError.singularSystem := by
  unfold userVector at h
  split at h
  · exact absurd h (by simp)
  · injection h with h
    exact h.symm

/-- Folding accumulation of a list of addends equals the initial value plus
the list sum. -/
theorem foldl_add_eq_sum {M : Type} [AddCommMonoid M] (t : ℤ × ℚ → M) :
    ∀ (l : List (ℤ × ℚ)) (init : M),
      l.foldl (fun acc dc => acc + t dc) init = init + (l.map t).sum
  | [], init => by simp
  | hd :: tl, init => by
      rw [List.foldl_cons, foldl_add_eq_sum t tl (init + t hd)]
      simp [add_assoc]

/-- The assembled matrix `A` written as the base matrix plus the sum of the
rank-one updates of the loop. -/
theorem systemMatrix_eq_sum (vm : VectorModel) (cmap : List (ℤ × ℚ)) :
    systemMatrix vm cmap
      = vm.squaredItemFactorsYtY + eye vm.nFactors vm.regularization
        + (cmap.map fun dc =>
            match vm.docIndexes dc.1 with
            | none => 0
            | some index =>
                (dc.2 - 1) • Matrix.vecMulVec (vm.itemFactorsY index)
                  (vm.itemFactorsY index)).sum := by
  unfold systemMatrix
  have hstep :
      (fun (A : Matrix (Fin vm.nFactors) (Fin vm.nFactors) ℚ) (dc : ℤ × ℚ) =>
        match vm.docIndexes dc.1 with
        | none => A
        | some index =>
            A + (dc.2 - 1) • Matrix.vecMulVec (vm.itemFactorsY index)
              (vm.itemFactorsY index))
      = fun A dc => A +
          (match vm.docIndexes dc.1 with
          | none => 0
          | some index =>
              (dc.2 - 1) • Matrix.vecMulVec (vm.itemFactorsY index)
                (vm.itemFactorsY index)) := by
    funext A dc
    cases h : vm.docIndexes dc.1 <;> simp [h]
  rw [hstep, foldl_add_eq_sum]

/-- The assembled vector `b` written as the sum of the scaled factor rows of
the loop. -/
theorem systemVector_eq_sum (vm : VectorModel) (cmap : List (ℤ × ℚ)) :
    systemVector vm cmap
      = (cmap.map fun dc =>
          match vm.docIndexes dc.1 with
          | none => 0
          | some index => dc.2 • vm.itemFactorsY index).sum := by
  unfold systemVector
  have hstep :
      (fun (b : Fin vm.nFactors → ℚ) (dc : ℤ × ℚ) =>
        match vm.docIndexes dc.1 with
        | none => b
        | some index => b + dc.2 • vm.itemFactorsY index)
      = fun b dc => b +
          (match vm.docIndexes dc.1 with
          | none => 0
          | some index => dc.2 • vm.itemFactorsY index) := by
    funext b dc
    cases h : vm.docIndexes dc.1 <;> simp [h]
  rw [hstep, foldl_add_eq_sum, zero_add]

/-- Every entry of the confidence map is a document of the model's index
carrying the model's global confidence. -/
theorem confidenceMap_mem {vm : VectorModel} {seenDocs : List ℤ} {dc : ℤ × ℚ}
    (h : dc ∈ confidenceMap vm seenDocs) :
    (vm.docIndexes dc.1).isSome ∧ dc.2 = vm.confidence := by
  unfold confidenceMap at h
  obtain ⟨doc, _, hdoc⟩ := List.mem_filterMap.mp h
  cases hidx : vm.docIndexes doc <;> rw [hidx] at hdoc
  · exact absurd hdoc (by simp)
  · injection hdoc with hdoc
    subst hdoc
    simp [hidx]

end Facts

namespace Facts

/-! ### Lemmas about scoring, sorting, and error propagation -/

/-- The sorted candidate list is a permutation of its input. -/
theorem sortByScoreDesc_perm (l : List DocumentScore) :
    (sortByScoreDesc l).Perm l :=
  List.mergeSort_perm l byDocScoreDescLe

/-- The sorted candidate list is in descending score order. -/
theorem sortByScoreDesc_sorted (l : List DocumentScore) :
    (sortByScoreDesc l).Pairwise fun a b => b.Score ≤ a.Score := by
  have h := @List.sorted_mergeSort DocumentScore byDocScoreDescLe
    (fun a b c hab hbc => by
      simp only [byDocScoreDescLe, decide_eq_true_eq] at hab hbc ⊢
      exact hbc.trans hab)
    (fun a b => by
      simp only [byDocScoreDescLe, Bool.or_eq_true, decide_eq_true_eq]
      exact le_total b.Score a.Score)
    l
  exact h.imp fun hab => by
    simpa [byDocScoreDescLe] using hab

/-- Inversion of a successful `scoreCandidates` call: the user vector was
solved, and the result is the descending sort of the per-candidate scores. -/
theorem scoreCandidates_ok_elim {vm : VectorModel} {cands seenDocs : List ℤ}
    {l : List DocumentScore} (h : scoreCandidates vm cands seenDocs = Except.ok l) :
    ∃ x, userVector vm (confidenceMap vm seenDocs) = Except.ok x ∧
      l = sortByScoreDesc (cands.map fun doc =>
        ⟨doc, scoreDoc vm seenDocs (scoresForUserVec vm x) doc⟩) := by
  unfold scoreCandidates at h
  split at h
  · exact absurd h (by simp)
  · cases huv : userVector vm (confidenceMap vm seenDocs) with
    | error e =>
        rw [huv] at h
        exact absurd h (by simp)
    | ok x =>
        rw [huv] at h
        injection h with h
        exact ⟨x, rfl, h.symm⟩

/-- Facts available for the result of any successful `scoreCandidates`
call: id-multiset preservation, descending order, and the scoring policy. -/
theorem scoreCandidates_ok_facts {vm : VectorModel} {cands seenDocs : List ℤ}
    {l : List DocumentScore} (h : scoreCandidates vm cands seenDocs = Except.ok l) :
    (l.map (·.DocumentID)).Perm cands
    ∧ l.Pairwise (fun a b => b.Score ≤ a.Score)
    ∧ ∃ x, userVector vm (confidenceMap vm seenDocs) = Except.ok x ∧
        ∀ p ∈ l, p.Score = scoreDoc vm seenDocs (scoresForUserVec vm x) p.DocumentID := by
  obtain ⟨x, hx, rfl⟩ := scoreCandidates_ok_elim h
  refine ⟨?_, sortByScoreDesc_sorted _, x, hx, ?_⟩
  · have hp := (sortByScoreDesc_perm
      (cands.map fun doc =>
        (⟨doc, scoreDoc vm seenDocs (scoresForUserVec vm x) doc⟩ : DocumentScore))).map
      (·.DocumentID)
    simp only [List.map_map, Function.comp_def] at hp
    simpa using hp
  · intro p hp
    have hmem : p ∈ cands.map fun doc =>
        (⟨doc, scoreDoc vm seenDocs (scoresForUserVec vm x) doc⟩ : DocumentScore) :=
      (sortByScoreDesc_perm _).subset hp
    obtain ⟨doc, _, rfl⟩ := List.mem_map.mp hmem
    rfl

/-- The confidence map is empty exactly when no seen document is present in
the model's id index. -/
theorem confidenceMap_eq_nil_iff (vm : VectorModel) (seenDocs : List ℤ) :
    confidenceMap vm seenDocs = [] ↔ ∀ doc ∈ seenDocs, vm.docIndexes doc = none := by
  unfold confidenceMap
  rw [List.filterMap_eq_nil_iff]
  constructor
  · intro h doc hdoc
    have hd := h doc (List.mem_dedup.mpr hdoc)
    cases hidx : vm.docIndexes doc
    · rfl
    · rw [hidx] at hd
      exact absurd hd (by simp)
  · intro h doc hdoc
    rw [h doc (List.mem_dedup.mp hdoc)]

/-- `scoreCandidates` returns the insufficient-history error exactly when
the confidence map is empty. -/
theorem scoreCandidates_insufficient_iff (vm : VectorModel) (cands seenDocs : List ℤ) :
    scoreCandidates vm cands seenDocs = Except.error VMError.insufficientHistory
      ↔ confidenceMap vm seenDocs = [] := by
  unfold scoreCandidates
  constructor
  · intro h
    split at h
    · next hlen => exact List.length_eq_zero.mp hlen
    · cases huv : userVector vm (confidenceMap vm seenDocs) with
      | error e =>
          rw [huv] at h
          injection h with h
          exact absurd (userVector_error_elim huv) (by rw [h]; simp)
      | ok x =>
          rw [huv] at h
          exact absurd h (by simp)
  · intro h
    rw [if_pos (by simp [h])]

/-- `Rank` propagates exactly the errors of `scoreCandidates`. -/
theorem rank_error_iff (vm : VectorModel) (cands seenDocs : List ℤ) (e : VMError) :
    Rank vm cands seenDocs = Except.error e
      ↔ scoreCandidates vm cands seenDocs = Except.error e := by
  unfold Rank
  cases h : scoreCandidates vm cands seenDocs <;> simp

/-- `Recommend` propagates exactly the errors of `scoreCandidates`. -/
theorem recommend_err_iff (vm : VectorModel) (seenDocs : List ℤ) (n : ℤ) (e : VMError) :
    Recommend vm seenDocs n = RecommendResult.err e
      ↔ scoreCandidates vm vm.docIDs seenDocs = Except.error e := by
  unfold Recommend
  cases h : scoreCandidates vm vm.docIDs seenDocs with
  | error e => simp
  | ok l =>
      constructor
      · intro hcontra
        by_cases h1 : ((l.length : ℤ) > n) <;> by_cases h2 : n < 0 <;>
          simp [h1, h2] at hcontra
      · intro hcontra
        exact absurd hcontra (by simp)

/-- A successful scoring pass makes `Recommend` return the `n`-prefix of the
scored list (for nonnegative `n`). -/
theorem recommend_ok_take {vm : VectorModel} {seenDocs : List ℤ} {n : ℤ}
    {l : List DocumentScore} (h : scoreCandidates vm vm.docIDs seenDocs = Except.ok l)
    (hn : 0 ≤ n) :
    Recommend vm seenDocs n = RecommendResult.ok (l.take n.toNat) := by
  unfold Recommend
  rw [h]
  dsimp only
  by_cases hlen : (l.length : ℤ) > n
  · rw [if_pos hlen, if_neg (by omega)]
  · rw [if_neg hlen, List.take_of_length_le (by omega)]

end Facts

namespace Facts

/-! ### Concrete models used to witness the theorems -/

/-- Every one-column matrix multiplication reduces to a single product. -/
theorem mulVec_single_col {m : ℕ} (Y : Matrix (Fin m) (Fin 1) ℚ) (x : Fin 1 → ℚ)
    (i : Fin m) : Y.mulVec x i = Y i 0 * x 0 := by
  simp [Matrix.mulVec, Matrix.dotProduct, Fin.sum_univ_one]

/-- A one-dimensional linear system is solved by checking one product. -/
theorem mulVec_one_dim {A : Matrix (Fin 1) (Fin 1) ℚ} {x b : Fin 1 → ℚ}
    (h : A 0 0 * x 0 = b 0) : A.mulVec x = b := by
  funext i
  obtain rfl : i = 0 := Subsingleton.elim i 0
  rw [mulVec_single_col, h]

/-- exampleModel is a one-item, one-factor model: document `5` with factor
row `[1]`, confidence `2`, regularization `1` (so the solved system is
`3·x = 2`). -/
@[reducible] def exampleModel : VectorModel where
  nItems := 1
  nFactors := 1
  confidence := 2
  regularization := 1
  docIDs := [5]
  docIndexes := fun d => if d = 5 then some 0 else none
  itemFactorsY := Matrix.of fun _ _ => 1
  squaredItemFactorsYtY := Matrix.of fun _ _ => 1

theorem exampleModel_cmap : confidenceMap exampleModel [5] = [(5, 2)] := rfl

theorem exampleModel_A :
    systemMatrix exampleModel [(5, 2)] = Matrix.of fun _ _ => 3 := by
  have h5 : exampleModel.docIndexes 5 = some 0 := rfl
  funext i j
  obtain rfl : i = 0 := Subsingleton.elim i 0
  obtain rfl : j = 0 := Subsingleton.elim j 0
  simp only [systemMatrix, List.foldl_cons, List.foldl_nil, h5]
  norm_num [exampleModel, eye, Matrix.vecMulVec, Matrix.add_apply, Matrix.smul_apply,
    Matrix.diagonal, Matrix.of_apply]

theorem exampleModel_b :
    systemVector exampleModel [(5, 2)] = fun _ => 2 := by
  have h5 : exampleModel.docIndexes 5 = some 0 := rfl
  funext j
  obtain rfl : j = 0 := Subsingleton.elim j 0
  simp only [systemVector, List.foldl_cons, List.foldl_nil, h5]
  norm_num [exampleModel, Pi.add_apply, Pi.smul_apply, Matrix.of_apply]

theorem exampleModel_chol :
    choleskyFactorizable (systemMatrix exampleModel [(5, 2)]) := by
  intro k hk
  have hk1 : k ≤ 1 := hk
  interval_cases k
  · simp [leadingSubmatrix, Matrix.det_fin_zero]
  · rw [show (leadingSubmatrix (systemMatrix exampleModel [(5, 2)]) 1 hk).det
        = systemMatrix exampleModel [(5, 2)] (Fin.castLE hk 0) (Fin.castLE hk 0) from
      Matrix.det_fin_one _]
    rw [exampleModel_A]
    norm_num

theorem exampleModel_userVector :
    userVector exampleModel (confidenceMap exampleModel [5])
      = Except.ok fun _ => 2 / 3 := by
  rw [exampleModel_cmap]
  refine userVector_eq_ok_of exampleModel_chol (mulVec_one_dim ?_)
  rw [exampleModel_A, exampleModel_b]
  norm_num [Matrix.of_apply]

end Facts

namespace Facts

theorem exampleModel_scoreCandidates_self :
    scoreCandidates exampleModel [5] [5] = Except.ok [⟨5, -1⟩] := by
  have huv : userVector exampleModel [(5, 2)] = Except.ok fun _ => 2 / 3 :=
    exampleModel_cmap ▸ exampleModel_userVector
  unfold scoreCandidates
  simp only [exampleModel_cmap, huv]
  norm_num [sortByScoreDesc, List.mergeSort, scoreDoc]

theorem exampleModel_scoreCandidates_pair :
    scoreCandidates exampleModel [5, 7] [5] = Except.ok [⟨7, 0⟩, ⟨5, -1⟩] := by
  have huv : userVector exampleModel [(5, 2)] = Except.ok fun _ => 2 / 3 :=
    exampleModel_cmap ▸ exampleModel_userVector
  unfold scoreCandidates
  simp only [exampleModel_cmap, huv]
  norm_num [sortByScoreDesc, List.mergeSort, byDocScoreDescLe, scoreDoc, exampleModel]

/-- exampleNegModel is a two-item, one-factor model: document `1` with
factor `[1]` and document `2` with factor `[-6]`, confidence `40`,
regularization `1/100`.  With document `1` seen, document `2` scores
`-24000/7601 < -1`, strictly below the seen sentinel score. -/
@[reducible] def exampleNegModel : VectorModel where
  nItems := 2
  nFactors := 1
  confidence := 40
  regularization := 1/100
  docIDs := [1, 2]
  docIndexes := fun d => if d = 1 then some 0 else if d = 2 then some 1 else none
  itemFactorsY := Matrix.of fun i _ => if i.val = 0 then 1 else -6
  squaredItemFactorsYtY := Matrix.of fun _ _ => 37

theorem exampleNegModel_cmap : confidenceMap exampleNegModel [1] = [(1, 40)] := rfl

theorem exampleNegModel_A :
    systemMatrix exampleNegModel [(1, 40)] = Matrix.of fun _ _ => 7601 / 100 := by
  have h1 : exampleNegModel.docIndexes 1 = some 0 := rfl
  funext i j
  obtain rfl : i = 0 := Subsingleton.elim i 0
  obtain rfl : j = 0 := Subsingleton.elim j 0
  simp only [systemMatrix, List.foldl_cons, List.foldl_nil, h1]
  norm_num [exampleNegModel, eye, Matrix.vecMulVec, Matrix.add_apply, Matrix.smul_apply,
    Matrix.diagonal, Matrix.of_apply]

theorem exampleNegModel_b :
    systemVector exampleNegModel [(1, 40)] = fun _ => 40 := by
  have h1 : exampleNegModel.docIndexes 1 = some 0 := rfl
  funext j
  obtain rfl : j = 0 := Subsingleton.elim j 0
  simp only [systemVector, List.foldl_cons, List.foldl_nil, h1]
  norm_num [exampleNegModel, Pi.add_apply, Pi.smul_apply, Matrix.of_apply]

theorem exampleNegModel_chol :
    choleskyFactorizable (systemMatrix exampleNegModel [(1, 40)]) := by
  intro k hk
  have hk1 : k ≤ 1 := hk
  interval_cases k
  · simp [leadingSubmatrix, Matrix.det_fin_zero]
  · rw [show (leadingSubmatrix (systemMatrix exampleNegModel [(1, 40)]) 1 hk).det
        = systemMatrix exampleNegModel [(1, 40)] (Fin.castLE hk 0) (Fin.castLE hk 0) from
      Matrix.det_fin_one _]
    rw [exampleNegModel_A]
    norm_num

theorem exampleNegModel_userVector :
    userVector exampleNegModel (confidenceMap exampleNegModel [1])
      = Except.ok fun _ => 4000 / 7601 := by
  rw [exampleNegModel_cmap]
  refine userVector_eq_ok_of exampleNegModel_chol (mulVec_one_dim ?_)
  rw [exampleNegModel_A, exampleNegModel_b]
  norm_num [Matrix.of_apply]

theorem exampleNegModel_scoreCandidates :
    scoreCandidates exampleNegModel [1, 2] [1]
      = Except.ok [⟨1, -1⟩, ⟨2, -(24000 / 7601)⟩] := by
  have huv : userVector exampleNegModel [(1, 40)] = Except.ok fun _ => 4000 / 7601 :=
    exampleNegModel_cmap ▸ exampleNegModel_userVector
  have hidx2 : exampleNegModel.docIndexes 2 = some 1 := rfl
  have hY : exampleNegModel.itemFactorsY 1 0 = -6 := rfl
  have hs : (scoresForUserVec exampleNegModel fun _ => 4000 / 7601) 1
      = -(24000 / 7601) := by
    have hscore := mulVec_single_col exampleNegModel.itemFactorsY
      (fun _ => (4000 : ℚ) / 7601) 1
    unfold scoresForUserVec
    rw [hscore, hY]
    norm_num
  have hc1 : (([1] : List ℤ).contains 1) = true := by decide
  have hc2 : (([1] : List ℤ).contains 2) = false := by decide
  have hmap : ([1, 2].map fun doc =>
      (⟨doc, scoreDoc exampleNegModel [1]
        (scoresForUserVec exampleNegModel fun _ => 4000 / 7601) doc⟩ : DocumentScore))
      = [⟨1, -1⟩, ⟨2, -(24000 / 7601)⟩] := by
    simp only [List.map_cons, List.map_nil, scoreDoc, hc1, hc2, hidx2, hs]
    simp
    exact hs
  unfold scoreCandidates
  simp only [exampleNegModel_cmap, huv]
  rw [hmap]
  norm_num [sortByScoreDesc, List.mergeSort, List.merge, byDocScoreDescLe]

end Facts

namespace Facts

/-! ### Claim theorems -/

/-- C1: for every model and every consumed-item set whose retained items
are non-empty, the vector computed by `userVector` is the (unique) solution
`x` of `A·x = b`, where `A = YᵗY + regularization·I` plus, for each retained
consumed item with confidence `c` and factor row `f`, the rank-one update
`(c − 1)·(f outer f)`, and `b` is the sum over retained items of `c·f`
(each retained item carries the model's global confidence); if the Cholesky
factorization of `A` cannot proceed, the operation fails with the
singular-system error instead of returning a vector. -/
theorem userVector_solves_system (vm : VectorModel) (seenDocs : List ℤ)
    (hf : 0 < vm.nFactors) (hne : confidenceMap vm seenDocs ≠ []) :
    (∀ x, userVector vm (confidenceMap vm seenDocs) = Except.ok x →
      (systemMatrix vm (confidenceMap vm seenDocs)).mulVec x
          = systemVector vm (confidenceMap vm seenDocs)
      ∧ ∀ y, (systemMatrix vm (confidenceMap vm seenDocs)).mulVec y
          = systemVector vm (confidenceMap vm seenDocs) → y = x)
    ∧ (¬ choleskyFactorizable (systemMatrix vm (confidenceMap vm seenDocs)) →
        userVector vm (confidenceMap vm seenDocs) = Except.error VMError.singularSystem)
    ∧ systemMatrix vm (confidenceMap vm seenDocs)
        = vm.squaredItemFactorsYtY + eye vm.nFactors vm.regularization
          + ((confidenceMap vm seenDocs).map fun dc =>
              match vm.docIndexes dc.1 with
              | none => 0
              | some index =>
                  (dc.2 - 1) • Matrix.vecMulVec (vm.itemFactorsY index)
                    (vm.itemFactorsY index)).sum
    ∧ systemVector vm (confidenceMap vm seenDocs)
        = ((confidenceMap vm seenDocs).map fun dc =>
            match vm.docIndexes dc.1 with
            | none => 0
            | some index => dc.2 • vm.itemFactorsY index).sum
    ∧ ∀ dc ∈ confidenceMap vm seenDocs,
        (vm.docIndexes dc.1).isSome ∧ dc.2 = vm.confidence := by
  refine ⟨?_, ?_, systemMatrix_eq_sum vm _, systemVector_eq_sum vm _,
    fun dc hdc => confidenceMap_mem hdc⟩
  · intro x hx
    refine ⟨userVector_ok_solves hx, fun y hy => ?_⟩
    have hch : choleskyFactorizable (systemMatrix vm (confidenceMap vm seenDocs)) := by
      by_contra hch
      rw [userVector, if_neg hch] at hx
      exact absurd hx (by simp)
    exact mulVec_injective_of_det_ne_zero
      (ne_of_gt (det_pos_of_choleskyFactorizable hch))
      (hy.trans (userVector_ok_solves hx).symm)
  · intro hch
    rw [userVector, if_neg hch]

/-- Witness for C1 at the concrete one-factor model `exampleModel` with
seen set `{5}`. -/
theorem userVector_solves_system_witness :
    (0 < exampleModel.nFactors ∧ confidenceMap exampleModel [5] ≠ []) ∧
    ((∀ x, userVector exampleModel (confidenceMap exampleModel [5]) = Except.ok x →
      (systemMatrix exampleModel (confidenceMap exampleModel [5])).mulVec x
          = systemVector exampleModel (confidenceMap exampleModel [5])
      ∧ ∀ y, (systemMatrix exampleModel (confidenceMap exampleModel [5])).mulVec y
          = systemVector exampleModel (confidenceMap exampleModel [5]) → y = x)
    ∧ (¬ choleskyFactorizable (systemMatrix exampleModel (confidenceMap exampleModel [5])) →
        userVector exampleModel (confidenceMap exampleModel [5])
          = Except.error VMError.singularSystem)
    ∧ systemMatrix exampleModel (confidenceMap exampleModel [5])
        = exampleModel.squaredItemFactorsYtY
            + eye exampleModel.nFactors exampleModel.regularization
          + ((confidenceMap exampleModel [5]).map fun dc =>
              match exampleModel.docIndexes dc.1 with
              | none => 0
              | some index =>
                  (dc.2 - 1) • Matrix.vecMulVec (exampleModel.itemFactorsY index)
                    (exampleModel.itemFactorsY index)).sum
    ∧ systemVector exampleModel (confidenceMap exampleModel [5])
        = ((confidenceMap exampleModel [5]).map fun dc =>
            match exampleModel.docIndexes dc.1 with
            | none => 0
            | some index => dc.2 • exampleModel.itemFactorsY index).sum
    ∧ ∀ dc ∈ confidenceMap exampleModel [5],
        (exampleModel.docIndexes dc.1).isSome ∧ dc.2 = exampleModel.confidence) :=
  ⟨⟨by decide, by rw [exampleModel_cmap]; simp⟩,
    userVector_solves_system exampleModel [5] (by decide)
      (by rw [exampleModel_cmap]; simp)⟩

end Facts

namespace Facts

/-- Inversion of a successful `Recommend` call: scoring succeeded and the
result is the scored list or its `n`-prefix. -/
theorem recommend_ok_elim {vm : VectorModel} {seenDocs : List ℤ} {n : ℤ}
    {recs : List DocumentScore}
    (h : Recommend vm seenDocs n = RecommendResult.ok recs) :
    ∃ l, scoreCandidates vm vm.docIDs seenDocs = Except.ok l
      ∧ (recs = l.take n.toNat ∨ recs = l) := by
  unfold Recommend at h
  cases hsc : scoreCandidates vm vm.docIDs seenDocs with
  | error e =>
      rw [hsc] at h
      exact absurd h (by simp)
  | ok l =>
      rw [hsc] at h
      dsimp only at h
      refine ⟨l, rfl, ?_⟩
      by_cases h1 : ((l.length : ℤ) > n)
      · by_cases h2 : n < 0
        · rw [if_pos h1, if_pos h2] at h
          exact absurd h (by simp)
        · rw [if_pos h1, if_neg h2] at h
          injection h with h
          exact Or.inl h.symm
      · rw [if_neg h1] at h
        injection h with h
        exact Or.inr h.symm

/-- Inversion of a successful `Rank` call: scoring succeeded and the two
returned lists are the projections of the scored list. -/
theorem rank_ok_elim {vm : VectorModel} {candidates seenDocs rankedIDs : List ℤ}
    {scores : List ℚ}
    (h : Rank vm candidates seenDocs = Except.ok (rankedIDs, scores)) :
    ∃ l, scoreCandidates vm candidates seenDocs = Except.ok l
      ∧ rankedIDs = l.map (·.DocumentID) ∧ scores = l.map (·.Score) := by
  unfold Rank at h
  cases hsc : scoreCandidates vm candidates seenDocs with
  | error e =>
      rw [hsc] at h
      exact absurd h (by simp)
  | ok l =>
      rw [hsc] at h
      dsimp only at h
      injection h with h
      rw [Prod.mk.injEq] at h
      exact ⟨l, rfl, h.1.symm, h.2.symm⟩

/-- The per-candidate scoring policy written with `Option.elim` instead of
the pattern match of `scoreDoc`. -/
theorem scoreDoc_eq_elim (vm : VectorModel) (seenDocs : List ℤ)
    (scoresVec : Fin vm.nItems → ℚ) (doc : ℤ) :
    scoreDoc vm seenDocs scoresVec doc
      = if seenDocs.contains doc then -1
        else (vm.docIndexes doc).elim 0 fun index => scoresVec index := by
  unfold scoreDoc
  cases h : vm.docIndexes doc <;> simp [h]

/-- C2: for every candidate item scored by `Rank` or `Recommend` (when
scoring succeeds): if the candidate is in the caller's seen set its score
is `−1`; otherwise, if it is not in the model's id index its score is `0`;
otherwise its score is the dot product of the candidate's factor row with
the computed user vector. -/
theorem rank_recommend_score_policy (vm : VectorModel) (seenDocs : List ℤ) :
    (∀ (candidates rankedIDs : List ℤ) (scores : List ℚ),
        Rank vm candidates seenDocs = Except.ok (rankedIDs, scores) →
        ∃ x, userVector vm (confidenceMap vm seenDocs) = Except.ok x ∧
          ∀ i (h1 : i < rankedIDs.length) (h2 : i < scores.length),
            scores[i]
              = if seenDocs.contains rankedIDs[i] then -1
                else (vm.docIndexes rankedIDs[i]).elim 0 fun index =>
                  vm.itemFactorsY.mulVec x index)
    ∧ (∀ (n : ℤ) (recs : List DocumentScore),
        Recommend vm seenDocs n = RecommendResult.ok recs →
        ∃ x, userVector vm (confidenceMap vm seenDocs) = Except.ok x ∧
          ∀ p ∈ recs, p.Score
              = if seenDocs.contains p.DocumentID then -1
                else (vm.docIndexes p.DocumentID).elim 0 fun index =>
                  vm.itemFactorsY.mulVec x index) := by
  constructor
  · intro candidates rankedIDs scores hok
    obtain ⟨l, hsc, hids, hscores⟩ := rank_ok_elim hok
    obtain ⟨x, hx, hl⟩ := (scoreCandidates_ok_facts hsc).2.2
    subst hids hscores
    refine ⟨x, hx, ?_⟩
    intro i h1 h2
    have hi : i < l.length := by simpa using h1
    have hmem : l[i] ∈ l := List.getElem_mem hi
    have hp := hl _ hmem
    simp only [List.getElem_map]
    rw [hp, scoreDoc_eq_elim]
    rfl
  · intro n recs hok
    obtain ⟨l, hsc, hrecs⟩ := recommend_ok_elim hok
    obtain ⟨x, hx, hl⟩ := (scoreCandidates_ok_facts hsc).2.2
    refine ⟨x, hx, ?_⟩
    intro p hp
    have hpl : p ∈ l := by
      rcases hrecs with rfl | rfl
      · exact List.take_subset _ _ hp
      · exact hp
    have hps := hl p hpl
    rw [hps, scoreDoc_eq_elim]
    rfl

/-- Witness for C2 at the concrete model `exampleModel`, candidates
`[5, 7]`, seen set `{5}`. -/
theorem rank_recommend_score_policy_witness :
    (∀ (candidates rankedIDs : List ℤ) (scores : List ℚ),
        Rank exampleModel candidates [5] = Except.ok (rankedIDs, scores) →
        ∃ x, userVector exampleModel (confidenceMap exampleModel [5]) = Except.ok x ∧
          ∀ i (h1 : i < rankedIDs.length) (h2 : i < scores.length),
            scores[i]
              = if ([5] : List ℤ).contains rankedIDs[i] then -1
                else (exampleModel.docIndexes rankedIDs[i]).elim 0 fun index =>
                  exampleModel.itemFactorsY.mulVec x index)
    ∧ (∀ (n : ℤ) (recs : List DocumentScore),
        Recommend exampleModel [5] n = RecommendResult.ok recs →
        ∃ x, userVector exampleModel (confidenceMap exampleModel [5]) = Except.ok x ∧
          ∀ p ∈ recs, p.Score
              = if ([5] : List ℤ).contains p.DocumentID then -1
                else (exampleModel.docIndexes p.DocumentID).elim 0 fun index =>
                  exampleModel.itemFactorsY.mulVec x index) :=
  rank_recommend_score_policy exampleModel [5]

end Facts

namespace Facts

/-- C3: `Rank` and `Recommend` fail with the insufficient-history error if
and only if none of the supplied seen items exist in the model's id index
(so a seen item unknown to the model is ignored and causes no error as long
as another seen item is in the model), and both operations return the
solver's error unchanged, with no scores alongside it. -/
theorem insufficient_history_iff (vm : VectorModel) (candidates seenDocs : List ℤ)
    (n : ℤ) :
    (Rank vm candidates seenDocs = Except.error VMError.insufficientHistory
        ↔ ∀ doc ∈ seenDocs, vm.docIndexes doc = none)
    ∧ (Recommend vm seenDocs n = RecommendResult.err VMError.insufficientHistory
        ↔ ∀ doc ∈ seenDocs, vm.docIndexes doc = none)
    ∧ (∀ e, scoreCandidates vm candidates seenDocs = Except.error e →
        Rank vm candidates seenDocs = Except.error e)
    ∧ (∀ e, scoreCandidates vm vm.docIDs seenDocs = Except.error e →
        Recommend vm seenDocs n = RecommendResult.err e) := by
  refine ⟨?_, ?_, ?_, ?_⟩
  · rw [rank_error_iff, scoreCandidates_insufficient_iff,
      confidenceMap_eq_nil_iff]
  · rw [recommend_err_iff, scoreCandidates_insufficient_iff,
      confidenceMap_eq_nil_iff]
  · intro e he
    exact (rank_error_iff vm candidates seenDocs e).mpr he
  · intro e he
    exact (recommend_err_iff vm seenDocs n e).mpr he

/-- Witness for C3 at the concrete model `exampleModel` with an empty seen
set: both operations fail with the insufficient-history error. -/
theorem insufficient_history_iff_witness :
    Rank exampleModel [5] [] = Except.error VMError.insufficientHistory
    ∧ Recommend exampleModel [] 3 = RecommendResult.err VMError.insufficientHistory :=
  ⟨(insufficient_history_iff exampleModel [5] [] 3).1.mpr (by simp),
    (insufficient_history_iff exampleModel [5] [] 3).2.1.mpr (by simp)⟩

end Facts

namespace Facts

/-- C4: for every model with `k` items and every seen-item set for which
scoring succeeds, `Recommend(seenDocs, n)` (with `n ≥ 0`) scores all `k`
items known to the model, sorts them descending by score, and returns
exactly `min(n, k)` (item, score) pairs; in particular when `n ≥ k` it
returns all `k` items in descending score order. -/
theorem recommend_returns_top_n (vm : VectorModel) (seenDocs : List ℤ) (n : ℤ)
    (hn : 0 ≤ n) (l : List DocumentScore)
    (hok : scoreCandidates vm vm.docIDs seenDocs = Except.ok l) :
    Recommend vm seenDocs n = RecommendResult.ok (l.take n.toNat)
    ∧ (l.map (·.DocumentID)).Perm vm.docIDs
    ∧ l.length = vm.docIDs.length
    ∧ l.Pairwise (fun a b => b.Score ≤ a.Score)
    ∧ (l.take n.toNat).Pairwise (fun a b => b.Score ≤ a.Score)
    ∧ (l.take n.toNat).length = min n.toNat vm.docIDs.length
    ∧ ((vm.docIDs.length : ℤ) ≤ n → Recommend vm seenDocs n = RecommendResult.ok l) := by
  obtain ⟨hperm, hsorted, -⟩ := scoreCandidates_ok_facts hok
  have hlen : l.length = vm.docIDs.length := by
    have := hperm.length_eq
    simpa using this
  refine ⟨recommend_ok_take hok hn, hperm, hlen, hsorted,
    hsorted.sublist (List.take_sublist _ _), ?_, ?_⟩
  · rw [List.length_take, hlen]
  · intro hk
    have htake : l.take n.toNat = l := List.take_of_length_le (by omega)
    rw [recommend_ok_take hok hn, htake]

/-- Witness for C4 at the concrete model `exampleModel` with seen set `{5}`
and `n = 3 ≥ k = 1`. -/
theorem recommend_returns_top_n_witness :
    (0 ≤ (3 : ℤ)
      ∧ scoreCandidates exampleModel exampleModel.docIDs [5]
          = Except.ok [⟨5, -1⟩])
    ∧ (Recommend exampleModel [5] 3
        = RecommendResult.ok (([⟨5, -1⟩] : List DocumentScore).take (3 : ℤ).toNat)
    ∧ (([⟨5, -1⟩] : List DocumentScore).map (·.DocumentID)).Perm exampleModel.docIDs
    ∧ ([⟨5, -1⟩] : List DocumentScore).length = exampleModel.docIDs.length
    ∧ ([⟨5, -1⟩] : List DocumentScore).Pairwise (fun a b => b.Score ≤ a.Score)
    ∧ (([⟨5, -1⟩] : List DocumentScore).take (3 : ℤ).toNat).Pairwise
        (fun a b => b.Score ≤ a.Score)
    ∧ (([⟨5, -1⟩] : List DocumentScore).take (3 : ℤ).toNat).length
        = min (3 : ℤ).toNat exampleModel.docIDs.length
    ∧ ((exampleModel.docIDs.length : ℤ) ≤ 3 →
        Recommend exampleModel [5] 3 = RecommendResult.ok [⟨5, -1⟩])) :=
  ⟨⟨by decide, by
      have h : exampleModel.docIDs = [5] := rfl
      rw [h]
      exact exampleModel_scoreCandidates_self⟩,
    recommend_returns_top_n exampleModel [5] 3 (by decide) [⟨5, -1⟩]
      (by
        have h : exampleModel.docIDs = [5] := rfl
        rw [h]
        exact exampleModel_scoreCandidates_self)⟩

/-- C5: for every candidate list and seen-item set for which scoring
succeeds, `Rank` reorders the caller's candidate list into descending-score
order, the multiset of candidate ids after the call equals the multiset
before (including duplicates, unknown items and seen items), and the
returned score list is parallel to the reordered list: `scores[i]` is the
score of the candidate now at position `i` (every candidate scored by the
per-candidate policy `scoreDoc`). -/
theorem rank_reorders_preserving_multiset (vm : VectorModel)
    (candidates seenDocs rankedIDs : List ℤ) (scores : List ℚ)
    (hok : Rank vm candidates seenDocs = Except.ok (rankedIDs, scores)) :
    rankedIDs.Perm candidates
    ∧ scores.Pairwise (fun a b : ℚ => b ≤ a)
    ∧ ∃ x, userVector vm (confidenceMap vm seenDocs) = Except.ok x ∧
        scores = rankedIDs.map (scoreDoc vm seenDocs (scoresForUserVec vm x)) := by
  obtain ⟨l, hsc, hids, hscores⟩ := rank_ok_elim hok
  obtain ⟨hperm, hsorted, x, hx, hl⟩ := scoreCandidates_ok_facts hsc
  subst hids hscores
  refine ⟨hperm, ?_, x, hx, ?_⟩
  · exact List.pairwise_map.mpr (hsorted.imp fun hab => hab)
  · rw [List.map_map]
    exact List.map_congr_left fun p hp => hl p hp

/-- Witness for C5 at the concrete model `exampleModel`, candidates
`[5, 7]` (one seen item, one unknown item), seen set `{5}`. -/
theorem rank_reorders_preserving_multiset_witness :
    Rank exampleModel [5, 7] [5] = Except.ok ([7, 5], [0, -1])
    ∧ (([7, 5] : List ℤ).Perm [5, 7]
    ∧ ([0, -1] : List ℚ).Pairwise (fun a b : ℚ => b ≤ a)
    ∧ ∃ x, userVector exampleModel (confidenceMap exampleModel [5]) = Except.ok x ∧
        ([0, -1] : List ℚ)
          = ([7, 5] : List ℤ).map
              (scoreDoc exampleModel [5] (scoresForUserVec exampleModel x))) := by
  have hok : Rank exampleModel [5, 7] [5] = Except.ok ([7, 5], [0, -1]) := by
    unfold Rank
    rw [exampleModel_scoreCandidates_pair]
    rfl
  exact ⟨hok,
    rank_reorders_preserving_multiset exampleModel [5, 7] [5] [7, 5] [0, -1] hok⟩

end Facts

namespace Facts

/-- C10: for every model and seen-item set for which scoring succeeds,
calling `Recommend` with a negative `n` panics at the slice operation
`recommendations[:n]` rather than returning an empty list or an error; the
truncation is only safe for `n ≥ 0`. -/
theorem recommend_negative_n_panics (vm : VectorModel) (seenDocs : List ℤ)
    (n : ℤ) (l : List DocumentScore)
    (hok : scoreCandidates vm vm.docIDs seenDocs = Except.ok l) (hn : n < 0) :
    Recommend vm seenDocs n = RecommendResult.panicked := by
  unfold Recommend
  rw [hok]
  dsimp only
  rw [if_pos (by omega), if_pos hn]

/-- Witness for C10 at the concrete model `exampleModel` with seen set
`{5}` and `n = -1`. -/
theorem recommend_negative_n_panics_witness :
    (scoreCandidates exampleModel exampleModel.docIDs [5] = Except.ok [⟨5, -1⟩]
      ∧ (-1 : ℤ) < 0)
    ∧ Recommend exampleModel [5] (-1) = RecommendResult.panicked := by
  have hok : scoreCandidates exampleModel exampleModel.docIDs [5]
      = Except.ok [⟨5, -1⟩] := by
    have h : exampleModel.docIDs = [5] := rfl
    rw [h]
    exact exampleModel_scoreCandidates_self
  exact ⟨⟨hok, by decide⟩,
    recommend_negative_n_panics exampleModel [5] (-1) [⟨5, -1⟩] hok (by decide)⟩

/-- Counterexample to C8 as frozen: in `exampleNegModel` the seen item `1`
comes back *first*, not last, because the other model item `2` has dot
product score `-24000/7601 < -1`, strictly below the seen sentinel `-1`.
The second conjunct records that item `2` is present in the model's index,
so the seen item does not rank last among returned model items. -/
theorem recommend_seen_item_not_last_counterexample :
    Recommend exampleNegModel [1] 10
      = RecommendResult.ok [⟨1, -1⟩, ⟨2, -(24000 / 7601)⟩]
    ∧ (exampleNegModel.docIndexes 2).isSome = true
    ∧ (([⟨1, -1⟩, ⟨2, -(24000 / 7601)⟩] : List DocumentScore).map
        (·.DocumentID)).indexOf 1
      < (([⟨1, -1⟩, ⟨2, -(24000 / 7601)⟩] : List DocumentScore).map
        (·.DocumentID)).indexOf 2 := by
  refine ⟨?_, by decide, by decide⟩
  unfold Recommend
  have h : exampleNegModel.docIDs = [1, 2] := rfl
  rw [h, exampleNegModel_scoreCandidates]
  rfl

/-- C8 as amended: for every model, a single seen item `s` present in the
model, and `n` at least the number of model items, a successful `Recommend`
excludes no model item; the seen item's score is the sentinel `-1`, and
every item listed *after* the seen item scores at most `-1` — so the seen
item ranks below every returned item whose score exceeds `-1`, but need not
rank last when another model item's dot-product score is `≤ -1`. -/
theorem recommend_seen_item_ranks_below_positive_scores (vm : VectorModel)
    (s : ℤ) (n : ℤ) (l : List DocumentScore)
    (hok : scoreCandidates vm vm.docIDs [s] = Except.ok l)
    (hs : (vm.docIndexes s).isSome = true)
    (hn : (vm.docIDs.length : ℤ) ≤ n) :
    Recommend vm [s] n = RecommendResult.ok l
    ∧ (l.map (·.DocumentID)).Perm vm.docIDs
    ∧ (∀ p ∈ l, p.DocumentID = s → p.Score = -1)
    ∧ l.Pairwise fun a b => a.DocumentID = s → b.Score ≤ -1 := by
  obtain ⟨hperm, hsorted, x, hx, hl⟩ := scoreCandidates_ok_facts hok
  have hlen : l.length = vm.docIDs.length := by simpa using hperm.length_eq
  have hseen : ∀ p ∈ l, p.DocumentID = s → p.Score = -1 := by
    intro p hp hps
    rw [hl p hp, hps]
    unfold scoreDoc
    rw [if_pos (by simp)]
  have hn0 : 0 ≤ n := le_trans (by positivity) hn
  refine ⟨?_, hperm, hseen, ?_⟩
  · have := recommend_ok_take hok hn0
    rwa [List.take_of_length_le (by omega)] at this
  · refine hsorted.imp_of_mem ?_
    intro a b ha _ hab has
    have ha1 : a.Score = -1 := hseen a ha has
    rw [ha1] at hab
    exact hab

/-- Witness for the amended C8 at `exampleNegModel`, seen item `1`,
`n = 10`. -/
theorem recommend_seen_item_ranks_below_positive_scores_witness :
    (scoreCandidates exampleNegModel exampleNegModel.docIDs [1]
        = Except.ok [⟨1, -1⟩, ⟨2, -(24000 / 7601)⟩]
      ∧ (exampleNegModel.docIndexes 1).isSome = true
      ∧ (exampleNegModel.docIDs.length : ℤ) ≤ 10)
    ∧ (Recommend exampleNegModel [1] 10
        = RecommendResult.ok [⟨1, -1⟩, ⟨2, -(24000 / 7601)⟩]
    ∧ (([⟨1, -1⟩, ⟨2, -(24000 / 7601)⟩] : List DocumentScore).map
        (·.DocumentID)).Perm exampleNegModel.docIDs
    ∧ (∀ p ∈ ([⟨1, -1⟩, ⟨2, -(24000 / 7601)⟩] : List DocumentScore),
        p.DocumentID = 1 → p.Score = -1)
    ∧ ([⟨1, -1⟩, ⟨2, -(24000 / 7601)⟩] : List DocumentScore).Pairwise
        fun a b => a.DocumentID = 1 → b.Score ≤ -1) := by
  have hok : scoreCandidates exampleNegModel exampleNegModel.docIDs [1]
      = Except.ok [⟨1, -1⟩, ⟨2, -(24000 / 7601)⟩] := by
    have h : exampleNegModel.docIDs = [1, 2] := rfl
    rw [h]
    exact exampleNegModel_scoreCandidates
  exact ⟨⟨hok, by decide, by decide⟩,
    recommend_seen_item_ranks_below_positive_scores exampleNegModel 1 10
      [⟨1, -1⟩, ⟨2, -(24000 / 7601)⟩] hok (by decide) (by decide)⟩

/-- Counterexample to C9 as frozen: the Go constructor applied to the empty
mapping reaches `mat.NewDense(0, 0, data)`, which panics (gonum documents
that `NewDense` panics when either dimension is zero); construction does
not complete with a degenerate model. -/
theorem new_vector_model_empty_input_counterexample :
    NewVectorModel [] 40 (1 / 100) = BuildResult.panicked := rfl

/-- C9 as amended: `NewVectorModel` applied to an empty mapping panics in
the gonum dense-matrix constructor (zero-sized matrix) for every choice of
the scalar parameters, instead of returning a degenerate zero-factor
model. -/
theorem new_vector_model_empty_panics (confidence regularization : ℚ) :
    NewVectorModel [] confidence regularization = BuildResult.panicked := rfl

end Facts

namespace Facts

/-- fallbackModel is a degenerate model value used only as the unreachable
default when destructuring a known-successful build result. -/
def fallbackModel : VectorModel where
  nItems := 0
  nFactors := 0
  confidence := 0
  regularization := 0
  docIDs := []
  docIndexes := fun _ => none
  itemFactorsY := Matrix.of fun _ _ => 0
  squaredItemFactorsYtY := Matrix.of fun _ _ => 0

/-- exampleDocs is a concrete one-document input mapping. -/
def exampleDocs : List (ℤ × List ℚ) := [(5, [2])]

/-- exampleBuilt is the model actually produced by `NewVectorModel` on
`exampleDocs`. -/
def exampleBuilt : VectorModel :=
  match NewVectorModel exampleDocs 2 1 with
  | BuildResult.ok vm => vm
  | BuildResult.invalidVectorSize => fallbackModel
  | BuildResult.panicked => fallbackModel

theorem exampleBuilt_eq :
    NewVectorModel exampleDocs 2 1 = BuildResult.ok exampleBuilt := rfl

/-- Counterexample to C6 as frozen: on the non-empty mapping `{1 ↦ []}`
all vectors share the same length `0`, yet the constructor does not return
a model without error — it reaches `mat.NewDense(1, 0, data)`, which panics
on the zero column dimension. -/
theorem new_vector_model_uniform_zero_length_counterexample :
    NewVectorModel [(1, ([] : List ℚ))] 1 1 = BuildResult.panicked := rfl


/-- C6 as amended: `NewVectorModel` fails with the invalid-vector-size
error if and only if two vectors in the input have different lengths; when
the mapping is non-empty and all vectors share the same *positive* length
`f`, it returns a model with `nFactors = f` and no error (for a uniform
length of zero the gonum matrix constructor panics instead, see the
counterexample). -/
theorem new_vector_model_validation (documents : List (ℤ × List ℚ))
    (confidence regularization : ℚ) :
    (NewVectorModel documents confidence regularization = BuildResult.invalidVectorSize
      ↔ ∃ p ∈ documents, ∃ q ∈ documents, p.2.length ≠ q.2.length)
    ∧ ∀ f, 0 < f → documents ≠ [] → (∀ p ∈ documents, p.2.length = f) →
        ∃ vm, NewVectorModel documents confidence regularization = BuildResult.ok vm
          ∧ vm.nFactors = f := by
  cases documents with
  | nil =>
      constructor
      · constructor
        · intro h
          exact absurd h (by simp [NewVectorModel])
        · rintro ⟨p, hp, -⟩
          exact absurd hp (by simp)
      · intro f _ hne _
        exact absurd rfl hne
  | cons d tl =>
      constructor
      · constructor
        · intro h
          by_cases hany : ((d :: tl).any fun p => p.2.length != d.2.length) = true
          · obtain ⟨p, hp, hpd⟩ := List.any_eq_true.mp hany
            exact ⟨p, hp, d, List.mem_cons_self d tl, by simpa using hpd⟩
          · unfold NewVectorModel at h
            dsimp only at h
            rw [if_neg hany] at h
            split_ifs at h <;> simp at h
        · rintro ⟨p, hp, q, hq, hpq⟩
          have hany : ((d :: tl).any fun p => p.2.length != d.2.length) = true := by
            by_cases hpd : p.2.length = d.2.length
            · refine List.any_eq_true.mpr ⟨q, hq, ?_⟩
              have hqd : q.2.length ≠ d.2.length := fun hq' => hpq (by rw [hpd, hq'])
              simpa using hqd
            · exact List.any_eq_true.mpr ⟨p, hp, by simpa using hpd⟩
          unfold NewVectorModel
          dsimp only
          rw [if_pos hany]
      · intro f hf hne huni
        have hd : d.2.length = f := huni d (List.mem_cons_self d tl)
        have hany : ¬ ((d :: tl).any fun p => p.2.length != d.2.length) = true := by
          rw [List.any_eq_true]
          rintro ⟨p, hp, hpd⟩
          rw [bne_iff_ne] at hpd
          exact hpd ((huni p hp).trans hd.symm)
        have h0 : ¬ ((d :: tl).length = 0 ∨ d.2.length = 0) := by
          rintro (h0 | h0)
          · simp at h0
          · rw [hd] at h0
            omega
        unfold NewVectorModel
        dsimp only
        rw [if_neg hany, if_neg h0]
        refine ⟨_, rfl, ?_⟩
        exact hd

/-- Witness for the amended C6 at the concrete input `exampleDocs`
(one document with a vector of positive length `1`). -/
theorem new_vector_model_validation_witness :
    ((NewVectorModel exampleDocs 2 1 = BuildResult.invalidVectorSize
      ↔ ∃ p ∈ exampleDocs, ∃ q ∈ exampleDocs, p.2.length ≠ q.2.length)
    ∧ ((0 : ℕ) < 1 ∧ exampleDocs ≠ [] ∧ ∀ p ∈ exampleDocs, p.2.length = 1)
    ∧ ∃ vm, NewVectorModel exampleDocs 2 1 = BuildResult.ok vm ∧ vm.nFactors = 1) :=
  ⟨(new_vector_model_validation exampleDocs 2 1).1,
    ⟨by decide, by decide, by decide⟩,
    (new_vector_model_validation exampleDocs 2 1).2 1 (by decide) (by decide)
      (by decide)⟩

/-- C7: after construction from vectors of uniform length `f`, the stored
Gram matrix is the `f × f` matrix `Yᵀ · Y` (its type is
`Matrix (Fin vm.nFactors) (Fin vm.nFactors) ℚ` with `vm.nFactors = f`), and
the equality is preserved by every subsequent operation: in the
state-passing reading, neither `Rank` nor `Recommend` changes the model
(the Go method bodies assign to no receiver field). -/
theorem gram_matrix_invariant (documents : List (ℤ × List ℚ))
    (confidence regularization : ℚ) (f : ℕ) (vm : VectorModel)
    (hbuild : NewVectorModel documents confidence regularization = BuildResult.ok vm)
    (huni : ∀ p ∈ documents, p.2.length = f) :
    vm.nFactors = f
    ∧ vm.squaredItemFactorsYtY = vm.itemFactorsY.transpose * vm.itemFactorsY
    ∧ (∀ candidates seenDocs,
        (RankWithModel vm candidates seenDocs).1 = vm
          ∧ (RankWithModel vm candidates seenDocs).1.squaredItemFactorsYtY
              = vm.itemFactorsY.transpose * vm.itemFactorsY)
    ∧ (∀ seenDocs n,
        (RecommendWithModel vm seenDocs n).1 = vm
          ∧ (RecommendWithModel vm seenDocs n).1.squaredItemFactorsYtY
              = vm.itemFactorsY.transpose * vm.itemFactorsY) := by
  cases documents with
  | nil => exact absurd hbuild (by simp [NewVectorModel])
  | cons d tl =>
      unfold NewVectorModel at hbuild
      dsimp only at hbuild
      by_cases hany : ((d :: tl).any fun p => p.2.length != d.2.length) = true
      · rw [if_pos hany] at hbuild
        exact absurd hbuild (by simp)
      · rw [if_neg hany] at hbuild
        by_cases h0 : ((d :: tl).length = 0 ∨ d.2.length = 0)
        · rw [if_pos h0] at hbuild
          exact absurd hbuild (by simp)
        · rw [if_neg h0] at hbuild
          injection hbuild with hbuild
          subst hbuild
          exact ⟨huni d (List.mem_cons_self d tl), rfl,
            fun _ _ => ⟨rfl, rfl⟩, fun _ _ => ⟨rfl, rfl⟩⟩

/-- Witness for C7 at the concretely constructed model `exampleBuilt`. -/
theorem gram_matrix_invariant_witness :
    (NewVectorModel exampleDocs 2 1 = BuildResult.ok exampleBuilt
      ∧ ∀ p ∈ exampleDocs, p.2.length = 1)
    ∧ (exampleBuilt.nFactors = 1
    ∧ exampleBuilt.squaredItemFactorsYtY
        = exampleBuilt.itemFactorsY.transpose * exampleBuilt.itemFactorsY
    ∧ (∀ candidates seenDocs,
        (RankWithModel exampleBuilt candidates seenDocs).1 = exampleBuilt
          ∧ (RankWithModel exampleBuilt candidates seenDocs).1.squaredItemFactorsYtY
              = exampleBuilt.itemFactorsY.transpose * exampleBuilt.itemFactorsY)
    ∧ (∀ seenDocs n,
        (RecommendWithModel exampleBuilt seenDocs n).1 = exampleBuilt
          ∧ (RecommendWithModel exampleBuilt seenDocs n).1.squaredItemFactorsYtY
              = exampleBuilt.itemFactorsY.transpose * exampleBuilt.itemFactorsY)) :=
  ⟨⟨exampleBuilt_eq, by decide⟩,
    gram_matrix_invariant exampleDocs 2 1 1 exampleBuilt exampleBuilt_eq (by decide)⟩

end Facts
